import Mathlib

/-!
# FleetCode session manager: a shallow embedding

This file embeds, in Lean, the main-process session-management logic of the
FleetCode repository (`main.ts`, `terminal-utils.ts`, `git-utils.ts`) and
proves properties of the embedded code.

Conventions of the embedding:
* JavaScript strings are Lean `String`s; substring search (`String.includes`
  with a start position, regex-literal `test`) is modelled over `List Char`.
* The persisted `electron-store` collection is a `List PersistedSession`;
  the in-memory `Map` of active PTY processes is an association list
  `List (String × Nat)` (session id to an opaque process handle).
* External effects (git subprocess outcomes, PTY spawns/kills/writes) are
  modelled by passing the outcome in as a parameter and returning the
  performed effects (spawn records, kill lists, written strings, events).
-/

namespace FleetCode

/-! ## Substring search (JavaScript `String.includes(pat, from)` and
regex-literal `test`) -/

/-- The pattern `pat` occurs in `s` starting at index `i`. -/
def occursAt (pat s : List Char) (i : Nat) : Prop :=
  (s.drop i).take pat.length = pat

instance (pat s : List Char) (i : Nat) : Decidable (occursAt pat s i) := by
  unfold occursAt; infer_instance

/-- JavaScript `s.includes(pat, k)`: some occurrence of `pat` in `s` starts
at an index `≥ k`. -/
def includesFrom (s pat : List Char) (k : Nat) : Bool :=
  (List.range (s.length + 1)).any
    (fun i => decide (k ≤ i) && decide (occursAt pat s i))

/-- JavaScript `s.includes(pat)`. -/
def includesStr (s pat : String) : Bool :=
  includesFrom s.toList pat.toList 0

/-- JavaScript `s.endsWith(pat)`. -/
def endsWithStr (s pat : String) : Bool :=
  pat.toList.isSuffixOf s.toList

/-! ## `terminal-utils.ts` -/

/-- Bracketed paste mode enable - indicates terminal is ready for input
(`BRACKETED_PASTE_MODE_ENABLE` in `terminal-utils.ts`). -/
def BRACKETED_PASTE_MODE_ENABLE : String := "\x1b[?2004h"

/-- The regex literal `/>\r\n/` (`CLAUDE_READY_PROMPT_PATTERN` in
`terminal-utils.ts`): an empty claude prompt with no trailing text. -/
def CLAUDE_READY_PROMPT_PATTERN : String := ">\r\n"

/-- `isTerminalReady(buffer, startPos)` from `terminal-utils.ts`:
`buffer.includes(BRACKETED_PASTE_MODE_ENABLE, startPos)`. -/
def isTerminalReady (buffer : String) (startPos : Nat) : Bool :=
  includesFrom buffer.toList BRACKETED_PASTE_MODE_ENABLE.toList startPos

/-- `isClaudeSessionReady(buffer)` from `terminal-utils.ts`:
`CLAUDE_READY_PROMPT_PATTERN.test(buffer)`. -/
def isClaudeSessionReady (buffer : String) : Bool :=
  includesFrom buffer.toList CLAUDE_READY_PROMPT_PATTERN.toList 0

/-! ## `git-utils.ts` -/

/-- The comparator body of `sortBranchesWithMainFirst`:
`-1` if only `a` is main/master, `1` if only `b` is, else `0`. -/
def isMainOrMaster (b : String) : Bool :=
  b == "main" || b == "master"

/-- The JavaScript comparator passed to `Array.prototype.sort` in
`sortBranchesWithMainFirst`. -/
def branchCompare (a b : String) : Int :=
  if isMainOrMaster a && !(isMainOrMaster b) then -1
  else if !(isMainOrMaster a) && isMainOrMaster b then 1
  else 0

/-- Stable insertion of `a` into `l`: before the first element `b` with
`le a b` true. -/
def orderedInsertB (le : String → String → Bool) (a : String) :
    List String → List String
  | [] => [a]
  | b :: l => if le a b then a :: b :: l else b :: orderedInsertB le a l

/-- Stable insertion sort: the semantics ES2019 guarantees for
`Array.prototype.sort` with a consistent comparator. -/
def insertionSortB (le : String → String → Bool) :
    List String → List String
  | [] => []
  | a :: l => orderedInsertB le a (insertionSortB le l)

/-- `sortBranchesWithMainFirst` from `git-utils.ts`:
`branches.sort(comparator)`, with `Array.prototype.sort` modelled as a
stable sort (ES2019 requires sort stability) ordered by the comparator. -/
def sortBranchesWithMainFirst (branches : List String) : List String :=
  insertionSortB (fun a b => branchCompare a b ≤ 0) branches

/-! ## Data model (`main.ts` interfaces) -/

/-- `SessionConfig` from `main.ts`. -/
structure SessionConfig where
  projectDir : String
  parentBranch : String
  codingAgent : String
  skipPermissions : Bool
  setupCommands : Option (List String)
deriving Repr, DecidableEq

/-- `PersistedSession` from `main.ts`. -/
structure PersistedSession where
  id : String
  number : Int
  name : String
  config : SessionConfig
  worktreePath : String
  createdAt : Int
  sessionUuid : String
deriving Repr, DecidableEq

/-- `getNextSessionNumber` from `main.ts`: `1` if no session is persisted,
otherwise `Math.max(...sessions.map(s => s.number)) + 1`. -/
def getNextSessionNumber (sessions : List PersistedSession) : Int :=
  match sessions.map (fun s => s.number) with
  | [] => 1
  | n :: ns => ns.foldl max n + 1

/-! ## PTY readiness handler (`spawnSessionPty` in `main.ts`) -/

/-- The readiness test in `spawnSessionPty`'s `onData` handler
(`main.ts`): bracketed paste mode, or one of the fallback prompt
indicators, in the accumulated buffer. -/
def isReadyBuffer (dataBuffer : String) : Bool :=
  includesStr dataBuffer "\x1b[?2004h" ||
    includesStr dataBuffer "$ " || includesStr dataBuffer "% " ||
    includesStr dataBuffer "> " || includesStr dataBuffer "➜ " ||
    includesStr dataBuffer "➜  " || includesStr dataBuffer "✗ " ||
    includesStr dataBuffer "✓ " || endsWithStr dataBuffer "$" ||
    endsWithStr dataBuffer "%" || endsWithStr dataBuffer ">" ||
    endsWithStr dataBuffer "➜" || endsWithStr dataBuffer "✗" ||
    endsWithStr dataBuffer "✓"

/-- JavaScript `array.join(" ")`. -/
def joinWithSpace : List String → String
  | [] => ""
  | [a] => a
  | a :: rest => a ++ " " ++ joinWithSpace rest

/-- The claude launch command built in `spawnSessionPty` (`main.ts`):
session flag by spawn kind, optional permissions-skip flag, truthy
(nonempty) flags kept and space-joined, then `claude <flags>\r`. -/
def buildClaudeCmd (isNewSession : Bool) (sessionUuid : String)
    (skipPermissions : Bool) : String :=
  let sessionFlag :=
    if isNewSession then "--session-id " ++ sessionUuid
    else "--resume " ++ sessionUuid
  let skipPermissionsFlag :=
    if skipPermissions then "--dangerously-skip-permissions" else ""
  let flags :=
    joinWithSpace (([sessionFlag, skipPermissionsFlag]).filter
      (fun f => f != ""))
  "claude " ++ flags ++ "\r"

/-- The per-session mutable state of `spawnSessionPty`'s `onData` closure:
the `terminalReady` flag and the accumulated `dataBuffer`. -/
structure PtyState where
  terminalReady : Bool
  dataBuffer : String
deriving Repr, DecidableEq

/-- The initial closure state: `terminalReady = false`, empty buffer. -/
def initPtyState : PtyState := { terminalReady := false, dataBuffer := "" }

/-- One `onData` event of `spawnSessionPty` (`main.ts`): returns the new
closure state and the list of strings auto-typed into the PTY during this
event, in write order.  When the buffer first satisfies the readiness
test, every setup command (if provided) is written CR-terminated in a
single `forEach` pass, immediately followed by the agent launch command. -/
def handleData (config : SessionConfig) (sessionUuid : String)
    (isNewSession : Bool) (st : PtyState) (data : String) :
    PtyState × List String :=
  if st.terminalReady then (st, [])
  else
    let buf := st.dataBuffer ++ data
    if isReadyBuffer buf then
      let setupWrites :=
        match config.setupCommands with
        | some cmds => cmds.map (fun cmd => cmd ++ "\r")
        | none => []
      let agentWrites :=
        if config.codingAgent == "claude" then
          [buildClaudeCmd isNewSession sessionUuid config.skipPermissions]
        else if config.codingAgent == "codex" then ["codex\r"]
        else []
      ({ terminalReady := true, dataBuffer := buf }, setupWrites ++ agentWrites)
    else ({ terminalReady := false, dataBuffer := buf }, [])

/-- Process a list of output chunks through `handleData`, collecting the
auto-typed writes of each event (one list per chunk, in order). -/
def sessionTrace (config : SessionConfig) (sessionUuid : String)
    (isNewSession : Bool) : PtyState → List String → List (List String)
  | _, [] => []
  | st, data :: rest =>
    let step := handleData config sessionUuid isNewSession st data
    step.2 :: sessionTrace config sessionUuid isNewSession step.1 rest

/-! ## The in-memory process map (`activePtyProcesses : Map<string, IPty>`) -/

/-- A JavaScript `Map` from session id to an opaque PTY handle, as an
association list in insertion order. -/
abbrev PtyMap := List (String × Nat)

/-- `Map.get`. -/
def mapGet (m : PtyMap) (k : String) : Option Nat :=
  (List.find? (fun p => p.1 == k) m).map (fun p => p.2)

/-- `Map.has`. -/
def mapHas (m : PtyMap) (k : String) : Bool :=
  (List.find? (fun p => p.1 == k) m).isSome

/-- `Map.set`: overwrite in place if the key exists, else append. -/
def mapSet (m : PtyMap) (k : String) (v : Nat) : PtyMap :=
  if mapHas m k then
    List.map (fun p => if p.1 == k then (k, v) else p) m
  else m ++ [(k, v)]

/-- `Map.delete`. -/
def mapDelete (m : PtyMap) (k : String) : PtyMap :=
  List.filter (fun p => p.1 != k) m

/-- Each key appears at most once in the map (inherent to a JS `Map`;
the invariant the association list must preserve). -/
def keysNodup (m : PtyMap) : Prop :=
  (List.map (fun p => p.1) m).Nodup

/-! ## Main-process handlers (`main.ts`) -/

/-- The outbound IPC events the session handlers emit. -/
inductive Event where
  | sessionCreated (id : String) (s : PersistedSession)
  | sessionError (message : String)
  | sessionReopened (id : String)
  | sessionDeleted (id : String)
deriving Repr, DecidableEq

/-- A call to `spawnSessionPty`: which session, in which directory, with
which resumption uuid and spawn kind. -/
structure SpawnRecord where
  sessionId : String
  worktreePath : String
  config : SessionConfig
  sessionUuid : String
  isNewSession : Bool
deriving Repr, DecidableEq

/-- The main-process state the handlers touch: the persisted `sessions`
collection in the store, and the live PTY map. -/
structure MainState where
  store : List PersistedSession
  ptys : PtyMap

/-- `createWorktree` from `main.ts`.  The stale-worktree removal and
stale-branch deletion are wrapped in try/catch and swallowed, so they
cannot affect the result; the final `git worktree add -b <branch> <path>
<parentBranch>` is NOT caught — its outcome (`gitAdd`) decides the call:
on success the worktree path `<projectDir>/.fleetcode/session<N>` is
returned, on failure the error propagates. -/
def createWorktree (projectDir : String) (_parentBranch : String)
    (sessionNumber : Int) (gitAdd : Except String Unit) :
    Except String String :=
  let worktreePath :=
    projectDir ++ "/.fleetcode/session" ++ toString sessionNumber
  match gitAdd with
  | Except.error e => Except.error e
  | Except.ok _ => Except.ok worktreePath

/-- `removeWorktree` from `main.ts`: the `git worktree remove --force`
call is wrapped in try/catch with the error only logged, so the function
returns normally whatever the git outcome. -/
def removeWorktree (_projectDir : String) (_worktreePath : String)
    (_gitRemove : Except String Unit) : Unit := ()

/-- The `create-session` IPC handler (`main.ts`).  Computes the next
session number from the current store, then creates the worktree; on
worktree failure the catch block replies a single `session-error` and
nothing has been persisted.  On success it persists the new record, then
spawns the PTY with `isNewSession = true`, then replies
`session-created`. -/
def createSession (st : MainState) (config : SessionConfig)
    (sessionId : String) (sessionUuid : String) (now : Int)
    (gitAdd : Except String Unit) (newPid : Nat) :
    MainState × List Event × List SpawnRecord :=
  let sessionNumber := getNextSessionNumber st.store
  let sessionName := "Session " ++ toString sessionNumber
  match createWorktree config.projectDir config.parentBranch sessionNumber
      gitAdd with
  | Except.error e => (st, [Event.sessionError e], [])
  | Except.ok worktreePath =>
    let persistedSession : PersistedSession :=
      { id := sessionId, number := sessionNumber, name := sessionName,
        config := config, worktreePath := worktreePath, createdAt := now,
        sessionUuid := sessionUuid }
    let store2 := st.store ++ [persistedSession]
    let ptys2 := mapSet st.ptys sessionId newPid
    ({ store := store2, ptys := ptys2 },
     [Event.sessionCreated sessionId persistedSession],
     [{ sessionId := sessionId, worktreePath := worktreePath,
        config := config, sessionUuid := sessionUuid,
        isNewSession := true }])

/-- The `reopen-session` IPC handler (`main.ts`).  If a PTY is already
active for the id it only replies `session-reopened`; otherwise it looks
the record up, silently returns when absent, and else spawns a PTY with
the persisted `sessionUuid` and `isNewSession = false`. -/
def reopenSession (st : MainState) (sessionId : String) (newPid : Nat) :
    MainState × List Event × List SpawnRecord :=
  if mapHas st.ptys sessionId then
    (st, [Event.sessionReopened sessionId], [])
  else
    match List.find? (fun s => s.id == sessionId) st.store with
    | none => (st, [], [])
    | some session =>
      ({ store := st.store, ptys := mapSet st.ptys sessionId newPid },
       [Event.sessionReopened sessionId],
       [{ sessionId := sessionId, worktreePath := session.worktreePath,
          config := session.config, sessionUuid := session.sessionUuid,
          isNewSession := false }])

/-- The `close-session` IPC handler (`main.ts`): kill the PTY if present
and remove its map entry; the persisted record is untouched.  Returns the
new state and the killed handles. -/
def closeSession (st : MainState) (sessionId : String) :
    MainState × List Nat :=
  match mapGet st.ptys sessionId with
  | some pid =>
    ({ store := st.store, ptys := mapDelete st.ptys sessionId }, [pid])
  | none => (st, [])

/-- The `delete-session` IPC handler (`main.ts`).  First kills and removes
any live PTY for the id; then looks the persisted record up — when absent
it logs and returns (store untouched, no event); when present it calls
`removeWorktree` (which swallows the git outcome), splices the record out,
saves, and emits `session-deleted`. -/
def deleteSession (st : MainState) (sessionId : String)
    (gitRemove : Except String Unit) :
    MainState × List Event × List Nat :=
  let killed :=
    match mapGet st.ptys sessionId with
    | some pid => [pid]
    | none => []
  let ptys2 :=
    match mapGet st.ptys sessionId with
    | some _ => mapDelete st.ptys sessionId
    | none => st.ptys
  match List.find? (fun s => s.id == sessionId) st.store with
  | none => ({ store := st.store, ptys := ptys2 }, [], killed)
  | some session =>
    let _ :=
      removeWorktree session.config.projectDir session.worktreePath gitRemove
    let store2 := List.eraseP (fun s => s.id == sessionId) st.store
    ({ store := store2, ptys := ptys2 },
     [Event.sessionDeleted sessionId], killed)

/-! ## Helper lemmas -/

/-- A session record with a given number and placeholder remaining fields,
for concrete instantiations. -/
def mkSession (n : Int) : PersistedSession :=
  { id := "id" ++ toString n, number := n, name := "Session " ++ toString n,
    config := { projectDir := "/p", parentBranch := "main",
                codingAgent := "claude", skipPermissions := false,
                setupCommands := none },
    worktreePath := "/p/.fleetcode/session" ++ toString n,
    createdAt := 0, sessionUuid := "uuid" ++ toString n }

theorem foldlMax_choice (ns : List Int) (n : Int) :
    ns.foldl max n = n ∨ ns.foldl max n ∈ ns := by
  induction ns generalizing n with
  | nil => exact Or.inl rfl
  | cons m ms ih =>
    rcases ih (max n m) with h | h
    · rcases max_choice n m with hm | hm
      · exact Or.inl (by rw [List.foldl_cons, h, hm])
      · exact Or.inr (by rw [List.foldl_cons, h, hm]; exact List.mem_cons_self _ _)
    · exact Or.inr (List.mem_cons_of_mem _ h)

theorem le_foldlMax_init (ns : List Int) (n : Int) : n ≤ ns.foldl max n := by
  induction ns generalizing n with
  | nil => exact le_refl n
  | cons m ms ih =>
    exact le_trans (le_max_left n m) (ih (max n m))

theorem le_foldlMax_mem (ns : List Int) (n : Int) :
    ∀ m ∈ ns, m ≤ ns.foldl max n := by
  induction ns generalizing n with
  | nil => intro m hm; cases hm
  | cons a as ih =>
    intro m hm
    rcases List.mem_cons.mp hm with rfl | hm
    · exact le_trans (le_max_right n m) (le_foldlMax_init as (max n m))
    · exact ih (max n a) m hm

theorem orderedInsertB_of_all_true (le : String → String → Bool)
    (a : String) (l : List String) (h : ∀ b ∈ l, le a b = true) :
    orderedInsertB le a l = a :: l := by
  cases l with
  | nil => rfl
  | cons b l => simp [orderedInsertB, h b (List.mem_cons_self b l)]

theorem orderedInsertB_skip_append (le : String → String → Bool)
    (x : String) (A B : List String)
    (hA : ∀ b ∈ A, le x b = false) (hB : ∀ b ∈ B, le x b = true) :
    orderedInsertB le x (A ++ B) = A ++ x :: B := by
  induction A with
  | nil =>
    cases B with
    | nil => rfl
    | cons b B =>
      simp [orderedInsertB, hB b (List.mem_cons_self b B)]
  | cons a A ih =>
    simp only [List.cons_append, orderedInsertB,
      hA a (List.mem_cons_self a A), Bool.false_eq_true, if_false,
      List.cons.injEq, true_and]
    exact ih (fun b hb => hA b (List.mem_cons_of_mem a hb))

theorem branchCompare_le_zero_of_left (x b : String)
    (hx : isMainOrMaster x = true) : branchCompare x b ≤ 0 := by
  unfold branchCompare
  rcases hb : isMainOrMaster b with _ | _ <;> simp [hx, hb]

theorem branchCompare_pos_of_right (x b : String)
    (hx : isMainOrMaster x = false) (hb : isMainOrMaster b = true) :
    ¬ branchCompare x b ≤ 0 := by
  unfold branchCompare
  simp [hx, hb]

theorem branchCompare_le_zero_of_neither (x b : String)
    (hx : isMainOrMaster x = false) (hb : isMainOrMaster b = false) :
    branchCompare x b ≤ 0 := by
  unfold branchCompare
  simp [hx, hb]

theorem sortBranches_partition (l : List String) :
    sortBranchesWithMainFirst l =
      l.filter isMainOrMaster ++ l.filter (fun b => !(isMainOrMaster b)) := by
  induction l with
  | nil => rfl
  | cons x l ih =>
    unfold sortBranchesWithMainFirst at ih ⊢
    unfold insertionSortB
    rw [ih]
    rcases hx : isMainOrMaster x with _ | _
    · rw [orderedInsertB_skip_append _ x (l.filter isMainOrMaster)
        (l.filter (fun b => !(isMainOrMaster b)))]
      · simp [List.filter_cons, hx]
      · intro b hb
        have hbG : isMainOrMaster b = true := (List.mem_filter.mp hb).2
        simp [branchCompare_pos_of_right x b hx hbG]
      · intro b hb
        have hbG : isMainOrMaster b = false := by
          have := (List.mem_filter.mp hb).2
          simpa using this
        simp [branchCompare_le_zero_of_neither x b hx hbG]
    · rw [orderedInsertB_of_all_true]
      · simp [List.filter_cons, hx]
      · intro b _
        simp [branchCompare_le_zero_of_left x b hx]

/-! ## Claim theorems -/

/-- C5: the next session number is 1 when the persisted collection is
empty; otherwise it is the maximum of the existing numbers plus 1 (an
existing number plus one that strictly exceeds all numbers, never a gap
fill); on numbers {1, 3, 4} it is 5. -/
theorem nextSessionNumber_max_plus_one (sessions : List PersistedSession)
    (h : sessions ≠ []) :
    getNextSessionNumber [] = 1 ∧
    (∃ s ∈ sessions, getNextSessionNumber sessions = s.number + 1) ∧
    (∀ s ∈ sessions, s.number < getNextSessionNumber sessions) ∧
    getNextSessionNumber [mkSession 1, mkSession 3, mkSession 4] = 5 := by
  refine ⟨rfl, ?_, ?_, by decide⟩
  · cases sessions with
    | nil => exact absurd rfl h
    | cons s rest =>
      unfold getNextSessionNumber
      simp only [List.map_cons]
      rcases foldlMax_choice (rest.map (fun s => s.number)) s.number with
        hc | hc
      · exact ⟨s, List.mem_cons_self s rest, by rw [hc]⟩
      · rcases List.mem_map.mp hc with ⟨t, ht, hts⟩
        exact ⟨t, List.mem_cons_of_mem s ht, by rw [hts]⟩
  · cases sessions with
    | nil => exact absurd rfl h
    | cons s rest =>
      intro t ht
      unfold getNextSessionNumber
      simp only [List.map_cons]
      have hle : t.number ≤
          (rest.map (fun s => s.number)).foldl max s.number := by
        rcases List.mem_cons.mp ht with rfl | ht
        · exact le_foldlMax_init _ _
        · exact le_foldlMax_mem _ _ _ (List.mem_map_of_mem _ ht)
      omega

/-- C5 witness: on the concrete collection with numbers {1, 3, 4} the
theorem applies and yields a session whose number + 1 is the result. -/
theorem nextSessionNumber_max_plus_one_witness :
    ∃ s ∈ [mkSession 1, mkSession 3, mkSession 4],
      getNextSessionNumber [mkSession 1, mkSession 3, mkSession 4] =
        s.number + 1 :=
  (nextSessionNumber_max_plus_one [mkSession 1, mkSession 3, mkSession 4]
    (by decide)).2.1

/-- C6: branch sorting places exactly the branches literally named "main"
or "master" at the front (in their original relative order) and all
remaining branches after them in their original relative order; on the
spec example the result is
["master", "main", "feature/a", "feature/b", "develop"]. -/
theorem sortBranches_main_first (l : List String) :
    sortBranchesWithMainFirst l =
      l.filter isMainOrMaster ++ l.filter (fun b => !(isMainOrMaster b)) ∧
    sortBranchesWithMainFirst
        ["feature/a", "master", "feature/b", "main", "develop"] =
      ["master", "main", "feature/a", "feature/b", "develop"] :=
  ⟨sortBranches_partition l, by decide⟩

theorem occursAt_le_length {pat s : List Char} {i : Nat}
    (hp : pat ≠ []) (h : occursAt pat s i) : i ≤ s.length := by
  by_contra hgt
  have hd : s.drop i = [] := List.drop_eq_nil_of_le (by omega)
  unfold occursAt at h
  rw [hd, List.take_nil] at h
  exact hp h.symm

theorem includesFrom_iff (s pat : List Char) (k : Nat) (hp : pat ≠ []) :
    includesFrom s pat k = true ↔ ∃ i, k ≤ i ∧ occursAt pat s i := by
  unfold includesFrom
  rw [List.any_eq_true]
  constructor
  · rintro ⟨i, _, hi⟩
    rw [Bool.and_eq_true, decide_eq_true_eq, decide_eq_true_eq] at hi
    exact ⟨i, hi.1, hi.2⟩
  · rintro ⟨i, hk, hocc⟩
    refine ⟨i, List.mem_range.mpr ?_, ?_⟩
    · have := occursAt_le_length hp hocc
      omega
    · rw [Bool.and_eq_true, decide_eq_true_eq, decide_eq_true_eq]
      exact ⟨hk, hocc⟩

/-- C7: the shell-readiness check fires exactly when the bracketed-paste
escape sequence occurs at or after the search offset; if every occurrence
ends before the offset it never re-fires; on a buffer holding the marker
twice (indices 0 and 11), scanning from 0 fires, scanning from past the
first occurrence (offset 8) fires again on the second occurrence, and
scanning from past the second (offset 19) never fires. -/
theorem isTerminalReady_offset_semantics :
    (∀ (buffer : String) (startPos : Nat),
      isTerminalReady buffer startPos = true ↔
        ∃ i, startPos ≤ i ∧
          occursAt BRACKETED_PASTE_MODE_ENABLE.toList buffer.toList i) ∧
    (∀ (buffer : String) (startPos : Nat),
      (∀ i, i ≤ buffer.toList.length →
          occursAt BRACKETED_PASTE_MODE_ENABLE.toList buffer.toList i →
          i < startPos) →
      isTerminalReady buffer startPos = false) ∧
    (isTerminalReady "\x1b[?2004habc\x1b[?2004h" 0 = true ∧
     isTerminalReady "\x1b[?2004habc\x1b[?2004h" 8 = true ∧
     isTerminalReady "\x1b[?2004habc\x1b[?2004h" 11 = true ∧
     isTerminalReady "\x1b[?2004habc\x1b[?2004h" 19 = false ∧
     isTerminalReady "\x1b[?2004h" 8 = false) := by
  have hp : BRACKETED_PASTE_MODE_ENABLE.toList ≠ [] := by decide
  have hiff := fun (buffer : String) (startPos : Nat) =>
    includesFrom_iff buffer.toList BRACKETED_PASTE_MODE_ENABLE.toList
      startPos hp
  refine ⟨fun buffer startPos => hiff buffer startPos, ?_, by decide⟩
  intro buffer startPos h
  by_contra hne
  have htrue : isTerminalReady buffer startPos = true := by
    revert hne
    cases isTerminalReady buffer startPos <;> simp
  rcases (hiff buffer startPos).mp htrue with ⟨i, hk, hocc⟩
  have hle := occursAt_le_length hp hocc
  have := h i hle hocc
  omega

/-- C7 witness: the theorem applied to the buffer holding the marker once,
scanned from offset 8 (just past the occurrence), yields no re-fire. -/
theorem isTerminalReady_offset_semantics_witness :
    isTerminalReady "\x1b[?2004h" 8 = false :=
  isTerminalReady_offset_semantics.2.1 "\x1b[?2004h" 8 (by decide)

/-- C9: the claude-session readiness detector fires exactly when the
buffer contains a bare prompt marker immediately followed by a line break
(the substring ">\r\n"); a prompt character mid-output with trailing text
on the same line does not fire, while a bare prompt line does. -/
theorem isClaudeSessionReady_semantics :
    (∀ buffer : String,
      isClaudeSessionReady buffer = true ↔
        ∃ i, occursAt CLAUDE_READY_PROMPT_PATTERN.toList buffer.toList i) ∧
    isClaudeSessionReady "claude> here is a suggestion\r\nmore" = false ∧
    isClaudeSessionReady "streamed output\r\n>\r\n" = true := by
  have hp : CLAUDE_READY_PROMPT_PATTERN.toList ≠ [] := by decide
  refine ⟨?_, by decide, by decide⟩
  intro buffer
  unfold isClaudeSessionReady
  rw [includesFrom_iff buffer.toList CLAUDE_READY_PROMPT_PATTERN.toList 0 hp]
  constructor
  · rintro ⟨i, _, hocc⟩; exact ⟨i, hocc⟩
  · rintro ⟨i, hocc⟩; exact ⟨i, Nat.zero_le i, hocc⟩

/-- C9 witness: the theorem's detector, applied to a buffer whose prompt
character has trailing suggestion text, does not fire. -/
theorem isClaudeSessionReady_semantics_witness :
    isClaudeSessionReady "claude> here is a suggestion\r\nmore" = false :=
  isClaudeSessionReady_semantics.2.1

/-- A session config with two setup commands, used to exercise the
setup-command write path. -/
def setupDemoConfig : SessionConfig :=
  { projectDir := "/p", parentBranch := "main", codingAgent := "claude",
    skipPermissions := false, setupCommands := some ["A", "B"] }

/-- C1 counterexample: with `setupCommands = ["A", "B"]`, the single
`onData` event carrying the first readiness marker already writes `A`,
`B` and the agent-launch command back to back — the second setup command
and the agent command are written inside the very event that produced the
ONLY readiness signal, not after further readiness signals following each
command's completion. -/
theorem setup_commands_not_gated_counterexample :
    sessionTrace setupDemoConfig "u" true initPtyState ["\x1b[?2004h"] =
      [["A\r", "B\r", "claude --session-id u\r"]] ∧
    ∃ ev ∈ sessionTrace setupDemoConfig "u" true initPtyState
        ["\x1b[?2004h"],
      "A\r" ∈ ev ∧ "B\r" ∈ ev ∧ "claude --session-id u\r" ∈ ev := by
  constructor
  · decide
  · exact ⟨["A\r", "B\r", "claude --session-id u\r"], by decide, by decide,
      by decide, by decide⟩

/-- C1 (amended): auto-typed writes happen in one burst.  Before the first
readiness signal nothing is auto-typed; the event whose accumulated buffer
first satisfies the readiness test writes every setup command CR-terminated,
in list order, immediately followed by the agent-launch command; after the
readiness flag is set no event auto-types anything further. -/
theorem setup_commands_single_burst (config : SessionConfig)
    (sessionUuid : String) (isNewSession : Bool) (st : PtyState)
    (data : String) :
    (st.terminalReady = false →
      isReadyBuffer (st.dataBuffer ++ data) = false →
      (handleData config sessionUuid isNewSession st data).2 = []) ∧
    (st.terminalReady = false →
      isReadyBuffer (st.dataBuffer ++ data) = true →
      config.codingAgent = "claude" →
      (handleData config sessionUuid isNewSession st data).2 =
        (config.setupCommands.getD []).map (fun cmd => cmd ++ "\r") ++
          [buildClaudeCmd isNewSession sessionUuid config.skipPermissions]) ∧
    (st.terminalReady = true →
      (handleData config sessionUuid isNewSession st data).2 = []) := by
  refine ⟨?_, ?_, ?_⟩
  · intro h1 h2
    simp [handleData, h1, h2]
  · intro h1 h2 h3
    cases hc : config.setupCommands with
    | none => simp [handleData, h1, h2, h3, hc]
    | some cmds => simp [handleData, h1, h2, h3, hc]
  · intro h1
    simp [handleData, h1]

/-- C1 witness: the amended theorem applied to the demo config at the
concrete readiness chunk produces exactly the burst of both setup
commands followed by the agent command. -/
theorem setup_commands_single_burst_witness :
    (handleData setupDemoConfig "u" true initPtyState "\x1b[?2004h").2 =
      (setupDemoConfig.setupCommands.getD []).map (fun cmd => cmd ++ "\r") ++
        [buildClaudeCmd true "u" setupDemoConfig.skipPermissions] :=
  (setup_commands_single_burst setupDemoConfig "u" true initPtyState
    "\x1b[?2004h").2.1 rfl (by decide) rfl

/-- C2: when the initial worktree-add operation fails, `create-session`
replies with a single session-error event, emits no session-created event,
spawns no PTY, and leaves the persisted collection (and the process map)
exactly as they were. -/
theorem createSession_worktree_failure (st : MainState)
    (config : SessionConfig) (sessionId sessionUuid : String) (now : Int)
    (msg : String) (newPid : Nat) :
    createSession st config sessionId sessionUuid now (Except.error msg)
      newPid = (st, [Event.sessionError msg], []) := rfl

/-- C3: `delete-session` is insensitive to the git outcome of the
worktree-removal step — the whole handler result is literally the same
function of the state for a failing removal as for a successful one — and
whenever the session is persisted the record is removed and
session-deleted is emitted, whatever that git outcome was. -/
theorem deleteSession_survives_worktree_failure :
    (∀ (st : MainState) (sessionId : String)
        (g gFail : Except String Unit),
      deleteSession st sessionId g = deleteSession st sessionId gFail) ∧
    (∀ (st : MainState) (sessionId : String) (g : Except String Unit),
      (List.find? (fun s => s.id == sessionId) st.store).isSome = true →
      (deleteSession st sessionId g).1.store =
        List.eraseP (fun s => s.id == sessionId) st.store ∧
      (deleteSession st sessionId g).2.1 =
        [Event.sessionDeleted sessionId]) := by
  refine ⟨fun st sessionId g gFail => rfl, ?_⟩
  intro st sessionId g h
  rcases Option.isSome_iff_exists.mp h with ⟨session, hfind⟩
  simp [deleteSession, hfind]

/-- C3 witness: deleting the persisted demo session while the git
worktree-removal fails (the directory was already removed externally)
still removes the record and emits session-deleted. -/
theorem deleteSession_survives_worktree_failure_witness :
    (deleteSession { store := [mkSession 1], ptys := [("id1", 5)] } "id1"
        (Except.error "worktree directory missing")).1.store =
      List.eraseP (fun s => s.id == "id1") [mkSession 1] ∧
    (deleteSession { store := [mkSession 1], ptys := [("id1", 5)] } "id1"
        (Except.error "worktree directory missing")).2.1 =
      [Event.sessionDeleted "id1"] :=
  deleteSession_survives_worktree_failure.2
    { store := [mkSession 1], ptys := [("id1", 5)] } "id1"
    (Except.error "worktree directory missing") (by decide)

theorem mapGet_none_of_find_none {m : PtyMap} {k : String}
    (h : List.find? (fun p => p.1 == k) m = none) : mapGet m k = none := by
  unfold mapGet
  rw [h]
  rfl

theorem mapHas_mapDelete (m : PtyMap) (k : String) :
    mapHas (mapDelete m k) k = false := by
  unfold mapHas mapDelete
  have hnone :
      List.find? (fun p => p.1 == k) (List.filter (fun p => p.1 != k) m) =
        none := by
    rw [List.find?_eq_none]
    intro p hp
    have := (List.mem_filter.mp hp).2
    simpa using this
  rw [hnone]
  rfl

theorem mapHas_false_of_mapGet_none {m : PtyMap} {k : String}
    (h : mapGet m k = none) : mapHas m k = false := by
  unfold mapGet at h
  unfold mapHas
  cases hf : List.find? (fun p => p.1 == k) m with
  | none => rfl
  | some p => rw [hf] at h; simp at h

/-- C10: deleting a session id that has no persisted record leaves the
collection unchanged and emits no event, yet any live PTY registered under
the id has already been killed (its handle is in the kill list) and its
map entry removed, so the resulting map has no entry for the id. -/
theorem deleteSession_missing_record (st : MainState) (sessionId : String)
    (g : Except String Unit)
    (h : List.find? (fun s => s.id == sessionId) st.store = none) :
    (deleteSession st sessionId g).1.store = st.store ∧
    (deleteSession st sessionId g).2.1 = [] ∧
    mapHas (deleteSession st sessionId g).1.ptys sessionId = false ∧
    (∀ pid, mapGet st.ptys sessionId = some pid →
      (deleteSession st sessionId g).2.2 = [pid] ∧
      (deleteSession st sessionId g).1.ptys = mapDelete st.ptys sessionId) ∧
    (mapGet st.ptys sessionId = none →
      (deleteSession st sessionId g).2.2 = []) := by
  cases hm : mapGet st.ptys sessionId with
  | none =>
    refine ⟨?_, ?_, ?_, ?_, ?_⟩ <;>
      simp [deleteSession, h, hm, mapHas_false_of_mapGet_none hm]
  | some pid =>
    refine ⟨?_, ?_, ?_, ?_, ?_⟩ <;>
      simp [deleteSession, h, hm, mapHas_mapDelete]

/-- C10 witness: deleting an id with a live PTY but no record kills and
deregisters the PTY, keeps the store, and emits nothing. -/
theorem deleteSession_missing_record_witness :
    (deleteSession { store := [], ptys := [("ghost", 7)] } "ghost"
        (Except.ok ())).1.store = [] ∧
    (deleteSession { store := [], ptys := [("ghost", 7)] } "ghost"
        (Except.ok ())).2.1 = [] ∧
    (deleteSession { store := [], ptys := [("ghost", 7)] } "ghost"
        (Except.ok ())).2.2 = [7] := by
  have h := deleteSession_missing_record
    { store := [], ptys := [("ghost", 7)] } "ghost" (Except.ok ())
    (by decide)
  exact ⟨h.1, h.2.1, (h.2.2.2.1 7 (by decide)).1⟩

theorem keys_map_overwrite (m : PtyMap) (k : String) (v : Nat) :
    (List.map (fun p => if p.1 == k then (k, v) else p) m).map
        (fun p => p.1) =
      m.map (fun p => p.1) := by
  induction m with
  | nil => rfl
  | cons p ps ih =>
    simp only [List.map_cons, ih, List.cons.injEq, and_true]
    cases hpk : p.1 == k with
    | false => simp
    | true => simp [(eq_of_beq hpk).symm]

theorem not_mem_keys_of_no_mapHas {m : PtyMap} {k : String}
    (h : mapHas m k = false) : k ∉ m.map (fun p => p.1) := by
  unfold mapHas at h
  intro hk
  rcases List.mem_map.mp hk with ⟨p, hp, hpk⟩
  cases hf : List.find? (fun p => p.1 == k) m with
  | some q => rw [hf] at h; simp at h
  | none =>
    have := List.find?_eq_none.mp hf p hp
    simp only [beq_iff_eq] at this
    exact this hpk

theorem keysNodup_mapSet (m : PtyMap) (k : String) (v : Nat)
    (h : keysNodup m) : keysNodup (mapSet m k v) := by
  unfold mapSet
  cases hh : mapHas m k with
  | true =>
    simp only [if_true]
    unfold keysNodup at h ⊢
    rw [keys_map_overwrite]
    exact h
  | false =>
    simp only [Bool.false_eq_true, if_false]
    unfold keysNodup at h ⊢
    rw [List.map_append]
    refine List.Nodup.append h (by simp) ?_
    rw [List.map_singleton, List.disjoint_singleton]
    exact not_mem_keys_of_no_mapHas hh

theorem keysNodup_mapDelete (m : PtyMap) (k : String)
    (h : keysNodup m) : keysNodup (mapDelete m k) :=
  List.Nodup.sublist
    (List.Sublist.map (fun p => p.1) (List.filter_sublist m)) h

/-- C4: at most one live PTY per session id.  Reopening an id whose PTY is
still active spawns nothing and only replies session-reopened, leaving the
state untouched; and each of create-session, reopen-session,
close-session and delete-session preserves key-uniqueness of the live
process map. -/
theorem single_live_pty_per_session :
    (∀ (st : MainState) (sessionId : String) (newPid : Nat),
      mapHas st.ptys sessionId = true →
      reopenSession st sessionId newPid =
        (st, [Event.sessionReopened sessionId], [])) ∧
    (∀ (st : MainState) (config : SessionConfig)
        (sessionId sessionUuid : String) (now : Int)
        (gitAdd : Except String Unit) (newPid : Nat),
      keysNodup st.ptys →
      keysNodup (createSession st config sessionId sessionUuid now gitAdd
        newPid).1.ptys) ∧
    (∀ (st : MainState) (sessionId : String) (newPid : Nat),
      keysNodup st.ptys →
      keysNodup (reopenSession st sessionId newPid).1.ptys) ∧
    (∀ (st : MainState) (sessionId : String),
      keysNodup st.ptys → keysNodup (closeSession st sessionId).1.ptys) ∧
    (∀ (st : MainState) (sessionId : String) (g : Except String Unit),
      keysNodup st.ptys → keysNodup (deleteSession st sessionId g).1.ptys) := by
  refine ⟨?_, ?_, ?_, ?_, ?_⟩
  · intro st sessionId newPid h
    unfold reopenSession
    rw [h]
    simp
  · intro st config sessionId sessionUuid now gitAdd newPid h
    cases gitAdd with
    | error e => exact h
    | ok _ =>
      simp only [createSession, createWorktree]
      exact keysNodup_mapSet _ _ _ h
  · intro st sessionId newPid h
    unfold reopenSession
    cases hh : mapHas st.ptys sessionId with
    | true => simpa using h
    | false =>
      simp only [Bool.false_eq_true, if_false]
      cases hf : List.find? (fun s => s.id == sessionId) st.store with
      | none => simpa using h
      | some session => exact keysNodup_mapSet _ _ _ h
  · intro st sessionId h
    unfold closeSession
    cases hg : mapGet st.ptys sessionId with
    | none => exact h
    | some pid => exact keysNodup_mapDelete _ _ h
  · intro st sessionId g h
    unfold deleteSession
    cases hg : mapGet st.ptys sessionId with
    | none =>
      cases hf : List.find? (fun s => s.id == sessionId) st.store with
      | none => exact h
      | some session => exact h
    | some pid =>
      cases hf : List.find? (fun s => s.id == sessionId) st.store with
      | none => exact keysNodup_mapDelete _ _ h
      | some session => exact keysNodup_mapDelete _ _ h

/-- C4 witness: reopening a session whose PTY is live returns the state
unchanged with no spawn, and creating a session on an empty state keeps
the process-map keys duplicate-free. -/
theorem single_live_pty_per_session_witness :
    reopenSession { store := [], ptys := [("s1", 3)] } "s1" 9 =
      ({ store := [], ptys := [("s1", 3)] },
        [Event.sessionReopened "s1"], []) ∧
    keysNodup (createSession { store := [], ptys := [] } setupDemoConfig
      "s1" "u" 0 (Except.ok ()) 3).1.ptys :=
  ⟨single_live_pty_per_session.1 { store := [], ptys := [("s1", 3)] }
      "s1" 9 (by decide),
   single_live_pty_per_session.2.1 { store := [], ptys := [] }
      setupDemoConfig "s1" "u" 0 (Except.ok ()) 3 (by simp [keysNodup])⟩

theorem append_ne_empty_left (s t : String) (h : 0 < s.length) :
    s ++ t ≠ "" := by
  intro he
  have hl := congrArg String.length he
  rw [String.length_append] at hl
  have h0 : ("" : String).length = 0 := rfl
  rw [h0] at hl
  omega

theorem str_append_assoc (a b c : String) : a ++ b ++ c = a ++ (b ++ c) :=
  String.ext (by simp [String.data_append])

theorem buildClaudeCmd_closed (u : String) :
    buildClaudeCmd true u false = "claude --session-id " ++ u ++ "\r" ∧
    buildClaudeCmd true u true =
      "claude --session-id " ++ u ++
        " --dangerously-skip-permissions\r" ∧
    buildClaudeCmd false u false = "claude --resume " ++ u ++ "\r" ∧
    buildClaudeCmd false u true =
      "claude --resume " ++ u ++ " --dangerously-skip-permissions\r" := by
  have h1 : (("--session-id " ++ u) != "") = true := by
    rw [bne_iff_ne]
    exact append_ne_empty_left _ _ (by decide)
  have h2 : (("--resume " ++ u) != "") = true := by
    rw [bne_iff_ne]
    exact append_ne_empty_left _ _ (by decide)
  have h3 : (("--dangerously-skip-permissions" : String) != "") = true := by
    decide
  have e1 : ("claude --session-id " : String).data =
      ("claude " : String).data ++ ("--session-id " : String).data := by
    decide
  have e2 : ("claude --resume " : String).data =
      ("claude " : String).data ++ ("--resume " : String).data := by
    decide
  have e3 : (" --dangerously-skip-permissions\r" : String).data =
      (" " : String).data ++
        (("--dangerously-skip-permissions" : String).data ++
          ("\r" : String).data) := by
    decide
  refine ⟨?_, ?_, ?_, ?_⟩ <;>
    · apply String.ext
      simp [buildClaudeCmd, joinWithSpace, h1, h2, h3, e1, e2, e3,
        String.data_append, List.append_assoc]

/-- The pair-of-adjacent-characters healthiness predicate for the built
command line: never two spaces in a row, never a space directly before
the carriage return. -/
def spacingOk (a b : Char) : Prop :=
  ¬(a = ' ' ∧ b = ' ') ∧ ¬(a = ' ' ∧ b = '\r')

instance (a b : Char) : Decidable (spacingOk a b) :=
  inferInstanceAs (Decidable (¬(a = ' ' ∧ b = ' ') ∧ ¬(a = ' ' ∧ b = '\r')))

theorem chain'_of_no_space {u : List Char} (h : ∀ c ∈ u, c ≠ ' ') :
    List.Chain' spacingOk u := by
  induction u with
  | nil => simp
  | cons a l ih =>
    cases l with
    | nil => simp
    | cons b l2 =>
      rw [List.chain'_cons]
      refine ⟨?_, ih (fun c hc => h c (List.mem_cons_of_mem a hc))⟩
      have ha := h a (List.mem_cons_self _ _)
      exact ⟨fun hab => ha hab.1, fun hab => ha hab.1⟩

theorem chain'_sandwich (A u B : List Char) (hu_ne : u ≠ [])
    (hu : ∀ c ∈ u, c ≠ ' ' ∧ c ≠ '\r')
    (hA : List.Chain' spacingOk A) (hB : List.Chain' spacingOk B) :
    List.Chain' spacingOk (A ++ (u ++ B)) := by
  rw [List.chain'_append]
  refine ⟨hA, ?_, ?_⟩
  · rw [List.chain'_append]
    refine ⟨chain'_of_no_space (fun c hc => (hu c hc).1), hB, ?_⟩
    intro x hx y hy
    have hxu : x ∈ u := by
      rcases List.mem_getLast?_eq_getLast hx with ⟨hne, hxe⟩
      rw [hxe]
      exact List.getLast_mem hne
    have hx1 := (hu x hxu).1
    exact ⟨fun hab => hx1 hab.1, fun hab => hx1 hab.1⟩
  · intro x hx y hy
    rw [List.head?_append_of_ne_nil u hu_ne] at hy
    have hyu : y ∈ u := List.mem_of_mem_head? hy
    rcases hu y hyu with ⟨h1, h2⟩
    exact ⟨fun hab => h1 hab.2, fun hab => h2 hab.2⟩

/-- C8: the claude launch command uses `--session-id <uuid>` on a first
spawn and `--resume <uuid>` on a reopen; the permissions-skip flag is
present exactly when skipPermissions is set; create-session spawns with
`isNewSession = true` and persists the very uuid it spawns with;
reopen-session spawns with the persisted record's uuid,
`isNewSession = false`, and does not modify the store; and for a nonempty
uuid free of spaces and carriage returns, the command line never contains
two adjacent spaces nor a space directly before the carriage return. -/
theorem claude_resumption_flags :
    (∀ u : String,
      buildClaudeCmd true u false = "claude --session-id " ++ u ++ "\r" ∧
      buildClaudeCmd true u true =
        "claude --session-id " ++ u ++
          " --dangerously-skip-permissions\r" ∧
      buildClaudeCmd false u false = "claude --resume " ++ u ++ "\r" ∧
      buildClaudeCmd false u true =
        "claude --resume " ++ u ++ " --dangerously-skip-permissions\r") ∧
    (∀ (st : MainState) (config : SessionConfig)
        (sessionId sessionUuid : String) (now : Int) (newPid : Nat),
      (createSession st config sessionId sessionUuid now (Except.ok ())
          newPid).2.2.map (fun r => (r.sessionUuid, r.isNewSession)) =
        [(sessionUuid, true)] ∧
      ∃ ps : PersistedSession,
        (createSession st config sessionId sessionUuid now (Except.ok ())
            newPid).1.store = st.store ++ [ps] ∧
        ps.sessionUuid = sessionUuid) ∧
    (∀ (st : MainState) (sessionId : String) (newPid : Nat)
        (session : PersistedSession),
      mapHas st.ptys sessionId = false →
      List.find? (fun s => s.id == sessionId) st.store = some session →
      (reopenSession st sessionId newPid).2.2.map
          (fun r => (r.sessionUuid, r.isNewSession)) =
        [(session.sessionUuid, false)] ∧
      (reopenSession st sessionId newPid).1.store = st.store) ∧
    (∀ (b sp : Bool) (u : String), u ≠ "" →
      (∀ c ∈ u.toList, c ≠ ' ' ∧ c ≠ '\r') →
      List.Chain' spacingOk (buildClaudeCmd b u sp).toList) := by
  refine ⟨buildClaudeCmd_closed, ?_, ?_, ?_⟩
  · intro st config sessionId sessionUuid now newPid
    refine ⟨rfl, ?_⟩
    exact ⟨_, rfl, rfl⟩
  · intro st sessionId newPid session hh hf
    unfold reopenSession
    rw [hh, hf]
    simp
  · intro b sp u hne hu
    have hu_ne : u.data ≠ [] := by
      intro hd
      exact hne (String.ext hd)
    have hu2 : ∀ c ∈ u.data, c ≠ ' ' ∧ c ≠ '\r' := hu
    have hcl := buildClaudeCmd_closed u
    cases b <;> cases sp
    · rw [hcl.2.2.1]
      show List.Chain' spacingOk ("claude --resume " ++ u ++ "\r").data
      rw [String.data_append, String.data_append, List.append_assoc]
      exact chain'_sandwich _ _ _ hu_ne hu2
        (by simp [List.chain'_cons, spacingOk])
        (by simp [List.chain'_cons, spacingOk])
    · rw [hcl.2.2.2]
      show List.Chain' spacingOk
        ("claude --resume " ++ u ++
          " --dangerously-skip-permissions\r").data
      rw [String.data_append, String.data_append, List.append_assoc]
      exact chain'_sandwich _ _ _ hu_ne hu2
        (by simp [List.chain'_cons, spacingOk])
        (by simp [List.chain'_cons, spacingOk])
    · rw [hcl.1]
      show List.Chain' spacingOk ("claude --session-id " ++ u ++ "\r").data
      rw [String.data_append, String.data_append, List.append_assoc]
      exact chain'_sandwich _ _ _ hu_ne hu2
        (by simp [List.chain'_cons, spacingOk])
        (by simp [List.chain'_cons, spacingOk])
    · rw [hcl.2.1]
      show List.Chain' spacingOk
        ("claude --session-id " ++ u ++
          " --dangerously-skip-permissions\r").data
      rw [String.data_append, String.data_append, List.append_assoc]
      exact chain'_sandwich _ _ _ hu_ne hu2
        (by simp [List.chain'_cons, spacingOk])
        (by simp [List.chain'_cons, spacingOk])

/-- C8 witness: reopening the persisted demo session spawns with its
persisted uuid in resume mode, and the command built for a concrete uuid
with both flags has healthy spacing. -/
theorem claude_resumption_flags_witness :
    ((reopenSession { store := [mkSession 1], ptys := [] } "id1" 9).2.2.map
        (fun r => (r.sessionUuid, r.isNewSession)) =
      [((mkSession 1).sessionUuid, false)]) ∧
    List.Chain' spacingOk (buildClaudeCmd true "abc-123" true).toList :=
  ⟨(claude_resumption_flags.2.2.1 { store := [mkSession 1], ptys := [] }
      "id1" 9 (mkSession 1) (by decide) (by decide)).1,
   claude_resumption_flags.2.2.2 true true "abc-123" (by decide)
     (by decide)⟩

end FleetCode
